import Mathlib

/-!
Shallow embedding of the alert-monitoring engine of `app.py`:
`get_cached_price` (lines 47-63), `check_alerts_job` (lines 65-164) and
`send_telegram` (lines 166-176), together with machine-checked proofs of the
specification claims about them.

Modelling conventions:
- Prices and timestamps are rationals (`ℚ`); Python floats carry no claim
  that depends on rounding here.
- Python `None` becomes `Option.none`; Python truthiness of prices and
  strings is modelled explicitly (`truthyPrice`, `strTruthy`).
- The Supabase store is a record of row lists; `.eq(col, v).execute().data`
  becomes a `List.find?` for single-row reads and a filter for the alert
  listing.  The `update(...).eq('id', ...)` call becomes a map over the rows.
- A possible raising store call is modelled by an operation counter and an
  injected failure index `Env.failAt`: the operation with that index raises,
  which aborts the rest of the tick (the body's `try/except` swallows it),
  exactly as a raising Supabase call would.
- `time.time()` / `datetime.now()` are sampled from the environment once per
  tick (`nowMono`, `nowDt`); the tick body keeps no other clock state.
- The rendered Telegram message text is observable only through the opaque
  `postFails` outcome; the per-alert notification attempt and its dispatcher
  result are recorded in the tick state.
-/

namespace StockAlerts

/-- An alert row of the `alerts` table (the fields the engine reads). -/
structure Alert where
  id : Nat
  username : String
  symbol : String
  target : ℚ
  type : String
  enabled : Bool
deriving DecidableEq

/-- A user row of the `users` table.  `trial_ends` is `none` when the column
is missing or its ISO string fails to parse (the code's bare `except: pass`
makes both behave identically). -/
structure User where
  username : String
  premium : Bool
  trial_ends : Option ℚ
deriving DecidableEq

/-- A row of the `user_settings` table. -/
structure Settings where
  username : String
  telegram_enabled : Bool
  telegram_chat_id : Option String
deriving DecidableEq

/-- The persistence store: the three tables the engine touches. -/
structure Store where
  alerts : List Alert
  users : List User
  user_settings : List Settings
deriving DecidableEq

/-- A wall-clock local time as produced by `astimezone`: weekday
(0 = Monday, matching `datetime.weekday()`), hour and minute. -/
structure LocalTime where
  weekday : Nat
  hour : Nat
  minute : Nat
deriving DecidableEq

/-- The ambient environment of one tick: the two converted local times, the
two clocks, the price source, the injected store-failure index, and the
Telegram configuration. -/
structure Env where
  ny : LocalTime
  syd : LocalTime
  nowMono : ℚ
  nowDt : ℚ
  fetch : String → Option ℚ
  failAt : Option Nat
  envChatId : Option String
  botToken : Option String
  postFails : String → String → Bool

/-- Python truthiness of an optional string: `None` and `''` are falsy. -/
def strTruthy : Option String → Bool
  | none => false
  | some s => decide (s ≠ "")

/-- Python truthiness of an optional price: `None` and `0` are falsy. -/
def truthyPrice : Option ℚ → Bool
  | none => false
  | some p => decide (p ≠ 0)

/-- US session check, lines 77-79: weekday Mon-Fri, `9 <= hour < 16`, and
not (`hour == 9 and minute < 30`). -/
def us_open (t : LocalTime) : Bool :=
  decide (t.weekday < 5 ∧ 9 ≤ t.hour ∧ t.hour < 16 ∧ ¬(t.hour = 9 ∧ t.minute < 30))

/-- ASX session check, lines 82-83: weekday Mon-Fri and `10 <= hour < 16`. -/
def asx_open (t : LocalTime) : Bool :=
  decide (t.weekday < 5 ∧ 10 ≤ t.hour ∧ t.hour < 16)

/-- The market gate of lines 85-87: the tick proceeds iff a session is open. -/
def marketOpen (ny syd : LocalTime) : Bool :=
  us_open ny || asx_open syd

/-- The process-local `_price_cache` dict: symbol ↦ (price, timestamp). -/
abbrev Cache := List (String × ℚ × ℚ)

/-- Dict lookup `_price_cache[symbol]`. -/
def cacheLookup (c : Cache) (s : String) : Option (ℚ × ℚ) :=
  (c.find? (fun e => e.1 == s)).map Prod.snd

/-- Dict assignment `_price_cache[symbol] = (price, now)`. -/
def cacheInsert (c : Cache) (s : String) (v : ℚ × ℚ) : Cache :=
  (s, v) :: c.filter (fun e => !(e.1 == s))

/-- Constant `CACHE_DURATION = 60` (line 45). -/
def CACHE_DURATION : ℚ := 60

/-- Cache-miss path of `get_cached_price`, lines 58-63: call the price
source; `if price:` store `(price, now)`; return the fetched value as-is
(so a fetched `0` is returned but never cached).  The `Bool` component
records that the price source was consulted. -/
def fetchFresh (fetch : String → Option ℚ) (now : ℚ) (cache : Cache) (symbol : String) :
    Option ℚ × Cache × Bool :=
  match fetch symbol with
  | some p => if p ≠ 0 then (some p, cacheInsert cache symbol (p, now), true)
              else (some p, cache, true)
  | none => (none, cache, true)

/-- Function `get_cached_price` (lines 47-63): serve a cache entry strictly younger
than `CACHE_DURATION`, otherwise fetch fresh. -/
def get_cached_price (fetch : String → Option ℚ) (now : ℚ) (cache : Cache) (symbol : String) :
    Option ℚ × Cache × Bool :=
  match cacheLookup cache symbol with
  | some (p, t) =>
      if now - t < CACHE_DURATION then (some p, cache, false)
      else fetchFresh fetch now cache symbol
  | none => fetchFresh fetch now cache symbol

/-- Trigger evaluation, lines 111-115: `above` fires at `price >= target`,
`below` fires at `price <= target`, anything else never fires. -/
def triggerEval (ty : String) (target price : ℚ) : Bool :=
  if ty = "above" ∧ price ≥ target then true
  else if ty = "below" ∧ price ≤ target then true
  else false

/-- Lines 130-139: a non-premium user whose parsed `trial_ends` lies
strictly in the past is skipped; a missing or unparsable `trial_ends`
(modelled as `none`) falls through to not-skipped. -/
def eligSkip (nowDt : ℚ) (u : User) : Bool :=
  !u.premium &&
    (match u.trial_ends with
     | some te => decide (nowDt > te)
     | none => false)

/-- Function `send_telegram` (lines 166-176): `False` without a truthy bot token or
when the HTTP post raises, `True` otherwise; never raises. -/
def send_telegram (env : Env) (message chat_id : String) : Bool :=
  match env.botToken with
  | none => false
  | some tok => if tok = "" then false else !(env.postFails message chat_id)

/-- Line 143: `settings.get('telegram_chat_id') or os.getenv('TELEGRAM_CHAT_ID')`. -/
def effChatId (stg : Settings) (env : Env) : Option String :=
  if strTruthy stg.telegram_chat_id then stg.telegram_chat_id else env.envChatId

/-- Abbreviated rendering of the message of lines 146-157; its content is
observable only through the opaque dispatcher outcome `Env.postFails`. -/
def renderMsg (a : Alert) (price : ℚ) : String :=
  "Alert Triggered " ++ a.symbol ++ " price " ++ toString price
    ++ " target " ++ toString a.target

/-- Row lookup in `user_settings` of line 120 (`.eq('username', u)`, first row). -/
def findSettings (store : Store) (username : String) : Option Settings :=
  store.user_settings.find? (fun s => s.username == username)

/-- Row lookup in `users` of line 121. -/
def findUser (store : Store) (username : String) : Option User :=
  store.users.find? (fun u => u.username == username)

/-- The observable state of one tick: the mutated alerts table and cache,
plus instrumentation (send attempts with their dispatcher result, symbols
looked up in the price cache, symbols fetched from the source, alert ids
disabled, store reads/writes, store-operation counter, abort flag). -/
structure TickSt where
  alerts : List Alert
  cache : Cache
  notifs : List (Nat × Bool)
  lookups : List String
  fetched : List String
  disabled : List Nat
  reads : Nat
  writes : Nat
  opIdx : Nat
  aborted : Bool
deriving DecidableEq

/-- One Supabase call: it raises iff its index equals `failAt`, in which
case the exception aborts the remainder of the tick. -/
def storeOp (failAt : Option Nat) (isWrite : Bool) (st : TickSt) : Bool × TickSt :=
  let ok := !(failAt == some st.opIdx)
  (ok, { st with
          opIdx := st.opIdx + 1,
          reads := st.reads + (if isWrite then 0 else 1),
          writes := st.writes + (if isWrite then 1 else 0),
          aborted := st.aborted || !ok })

/-- The `update({'enabled': False}).eq('id', id)` write of line 161. -/
def disableById (id : Nat) (l : List Alert) : List Alert :=
  l.map (fun x => if x.id = id then { x with enabled := false } else x)

/-- Lines 110-161: handle one alert of the current symbol group at the
symbol's (truthy) price: trigger check, the two row reads, the expired-trial
skip, the optional Telegram attempt, the unconditional disable. -/
def processAlert (env : Env) (store : Store) (price : ℚ) (st : TickSt) (a : Alert) : TickSt :=
  if st.aborted then st
  else if triggerEval a.type a.target price then
    let r1 := storeOp env.failAt false st
    if r1.1 = false then r1.2
    else
      let r2 := storeOp env.failAt false r1.2
      if r2.1 = false then r2.2
      else
        match findSettings store a.username, findUser store a.username with
        | some stg, some u =>
          if eligSkip env.nowDt u then r2.2
          else
            let st3 :=
              if stg.telegram_enabled && strTruthy (effChatId stg env) then
                { r2.2 with notifs := r2.2.notifs ++
                    [(a.id, send_telegram env (renderMsg a price) ((effChatId stg env).getD ""))] }
              else r2.2
            let r3 := storeOp env.failAt true st3
            if r3.1 = false then r3.2
            else { r3.2 with
                    alerts := disableById a.id r3.2.alerts,
                    disabled := r3.2.disabled ++ [a.id] }
        | _, _ => r2.2
  else st

/-- Lines 103-115: price one symbol group through the cache; `if not price:
continue` skips every alert of the group on a falsy price. -/
def processGroup (env : Env) (store : Store) (st : TickSt) (grp : String × List Alert) : TickSt :=
  if st.aborted then st
  else
    let res := get_cached_price env.fetch env.nowMono st.cache grp.1
    let st1 := { st with
                  cache := res.2.1,
                  lookups := st.lookups ++ [grp.1],
                  fetched := st.fetched ++ (if res.2.2 then [grp.1] else []) }
    match res.1 with
    | some p => if p ≠ 0 then grp.2.foldl (processAlert env store p) st1 else st1
    | none => st1

/-- One step of the `defaultdict(list)` grouping of lines 96-98: append the
alert to its symbol's group, or open a new group at the end. -/
def addToGroups (gs : List (String × List Alert)) (a : Alert) : List (String × List Alert) :=
  match gs with
  | [] => [(a.symbol, [a])]
  | (s, g) :: rest =>
      if s = a.symbol then (s, g ++ [a]) :: rest
      else (s, g) :: addToGroups rest a

/-- Grouping `alerts_by_symbol`: groups keyed by symbol in first-occurrence order,
each group in listing order. -/
def groupBySymbol (l : List Alert) : List (String × List Alert) :=
  l.foldl addToGroups []

/-- The starting tick state over a store snapshot and the current cache. -/
def initTick (store : Store) (cache : Cache) : TickSt :=
  { alerts := store.alerts, cache := cache, notifs := [], lookups := [],
    fetched := [], disabled := [], reads := 0, writes := 0, opIdx := 0,
    aborted := false }

/-- Function `check_alerts_job` (lines 65-164): market gate, enabled-alert listing,
grouping, and the per-symbol pipeline.  The body's `try/except` is the
abort flag: a raising store operation stops all further work but the
function still returns (the scheduler survives). -/
def check_alerts_job (env : Env) (store : Store) (cache : Cache) : TickSt :=
  if marketOpen env.ny env.syd then
    let r := storeOp env.failAt false (initTick store cache)
    if r.1 = false then r.2
    else
      let enabledAlerts := store.alerts.filter (·.enabled)
      if enabledAlerts.isEmpty then r.2
      else (groupBySymbol enabledAlerts).foldl (processGroup env store) r.2
  else initTick store cache

/-- The price outcome a symbol gets from the cache state a tick starts
with (the tick touches each symbol's cache entry at most once, so this is
the price every alert of that symbol is evaluated at). -/
def priceOutcome (env : Env) (cache : Cache) (s : String) : Option ℚ :=
  (get_cached_price env.fetch env.nowMono cache s).1

/-- Replay a list of disable writes over the alerts table. -/
def applyDisables (ds : List Nat) (l : List Alert) : List Alert :=
  l.map (fun x => if x.id ∈ ds then { x with enabled := false } else x)

/-- The conditions under which the tick reaches the disable write for an
alert evaluated at price `p`: trigger fired, both rows found, owner not an
expired free user. -/
def disableGate (env : Env) (store : Store) (a : Alert) (p : ℚ) : Prop :=
  triggerEval a.type a.target p = true ∧
  ∃ stg u, findSettings store a.username = some stg ∧ findUser store a.username = some u ∧
    eligSkip env.nowDt u = false

/-- The conditions under which the tick makes a Telegram attempt for an
alert evaluated at price `p`: the disable gate plus an enabled channel with
a truthy chat id. -/
def sendGate (env : Env) (store : Store) (a : Alert) (p : ℚ) : Prop :=
  triggerEval a.type a.target p = true ∧
  ∃ stg u, findSettings store a.username = some stg ∧ findUser store a.username = some u ∧
    eligSkip env.nowDt u = false ∧
    (stg.telegram_enabled && strTruthy (effChatId stg env)) = true

/-- Concrete tick environment used in witnesses: Tuesday 10:00 New York
(US session open; the same instant is Wednesday 01:00 in Sydney), no
injected store failure, a price source knowing AAPL = 155 and ZERO = 0. -/
def wEnv : Env :=
  { ny := ⟨1, 10, 0⟩, syd := ⟨2, 1, 0⟩, nowMono := 1000, nowDt := 500,
    fetch := fun s => if s = "AAPL" then some 155 else if s = "ZERO" then some 0 else none,
    failAt := none, envChatId := some "envchat", botToken := some "tok",
    postFails := fun _ _ => false }

/-- Witness store: one firing alert (alice, trial still running), one
non-firing one (bob), a zero-priced symbol (carol), a failing fetch (dave),
an expired-trial owner (erin) and an owner with no user row (frank). -/
def wStore : Store :=
  { alerts := [⟨1, "alice", "AAPL", 150, "above", true⟩,
               ⟨2, "bob", "AAPL", 140, "below", true⟩,
               ⟨3, "carol", "ZERO", 10, "below", true⟩,
               ⟨4, "dave", "MISS", 10, "below", true⟩,
               ⟨5, "erin", "AAPL", 150, "above", true⟩,
               ⟨6, "frank", "AAPL", 150, "above", true⟩],
    users := [⟨"alice", false, some 600⟩, ⟨"bob", true, none⟩,
              ⟨"carol", true, none⟩, ⟨"dave", true, none⟩,
              ⟨"erin", false, some 100⟩],
    user_settings := [⟨"alice", true, some "c1"⟩, ⟨"bob", true, some "c2"⟩,
                      ⟨"carol", true, some "c3"⟩, ⟨"dave", true, some "c4"⟩,
                      ⟨"erin", true, some "c5"⟩, ⟨"frank", true, some "c6"⟩] }

/-- The witness environment moved to a Saturday in New York (Sunday
morning in Sydney): both sessions closed. -/
def wClosedEnv : Env :=
  { wEnv with ny := ⟨5, 12, 0⟩, syd := ⟨6, 3, 0⟩ }

/-- Environment whose fifth store operation (index 4) raises: the tick
lists alerts (op 0), fully processes the first alert (ops 1-3, including
its successful disable write), then the settings query of the second alert
(op 4) raises and the tick aborts. -/
def cexEnv : Env :=
  { ny := ⟨1, 10, 0⟩, syd := ⟨2, 1, 0⟩, nowMono := 1000, nowDt := 500,
    fetch := fun _ => some 20, failAt := some 4, envChatId := none,
    botToken := none, postFails := fun _ _ => false }

/-- Store for the store-failure counterexample: two eligible alerts on the
same symbol, both of which trigger at price 20. -/
def cexStore : Store :=
  { alerts := [⟨1, "u", "A", 10, "above", true⟩, ⟨2, "u", "A", 10, "above", true⟩],
    users := [⟨"u", true, none⟩],
    user_settings := [⟨"u", false, none⟩] }

/-- Bound on the store-operation counter when the operation with index `k`
raises: a state that has not aborted has attempted at most the operations
before index `k`, and in any case no operation beyond index `k` is ever
attempted. -/
def OpInv (k : Nat) (st : TickSt) : Prop :=
  (st.aborted = false → st.opIdx ≤ k) ∧ st.opIdx ≤ k + 1

/-- US session in the spec's phrasing: weekday Mon-Fri and local
New York time in `[09:30, 16:00)`, as minutes since midnight. -/
def usSessionSpec (t : LocalTime) : Prop :=
  t.weekday < 5 ∧ 570 ≤ 60 * t.hour + t.minute ∧ 60 * t.hour + t.minute < 960

/-- AU session in the spec's phrasing: weekday Mon-Fri and local Sydney
time in `[10:00, 16:00)`. -/
def auSessionSpec (t : LocalTime) : Prop :=
  t.weekday < 5 ∧ 600 ≤ 60 * t.hour + t.minute ∧ 60 * t.hour + t.minute < 960

/-! ### Basic lemmas about the store-operation counter -/

@[simp] theorem storeOp_snd_alerts (f : Option Nat) (w : Bool) (st : TickSt) :
    (storeOp f w st).2.alerts = st.alerts := rfl

@[simp] theorem storeOp_snd_cache (f : Option Nat) (w : Bool) (st : TickSt) :
    (storeOp f w st).2.cache = st.cache := rfl

@[simp] theorem storeOp_snd_notifs (f : Option Nat) (w : Bool) (st : TickSt) :
    (storeOp f w st).2.notifs = st.notifs := rfl

@[simp] theorem storeOp_snd_lookups (f : Option Nat) (w : Bool) (st : TickSt) :
    (storeOp f w st).2.lookups = st.lookups := rfl

@[simp] theorem storeOp_snd_fetched (f : Option Nat) (w : Bool) (st : TickSt) :
    (storeOp f w st).2.fetched = st.fetched := rfl

@[simp] theorem storeOp_snd_disabled (f : Option Nat) (w : Bool) (st : TickSt) :
    (storeOp f w st).2.disabled = st.disabled := rfl

@[simp] theorem storeOp_snd_opIdx (f : Option Nat) (w : Bool) (st : TickSt) :
    (storeOp f w st).2.opIdx = st.opIdx + 1 := rfl

@[simp] theorem storeOp_snd_aborted (f : Option Nat) (w : Bool) (st : TickSt) :
    (storeOp f w st).2.aborted = (st.aborted || f == some st.opIdx) := by
  simp [storeOp]

@[simp] theorem storeOp_fst (f : Option Nat) (w : Bool) (st : TickSt) :
    (storeOp f w st).1 = !(f == some st.opIdx) := rfl

/-! ### Lemmas about replaying disable writes -/

@[simp] theorem applyDisables_nil (l : List Alert) : applyDisables [] l = l := by
  simp [applyDisables]

theorem disableById_applyDisables (i : Nat) (ds : List Nat) (l : List Alert) :
    disableById i (applyDisables ds l) = applyDisables (ds ++ [i]) l := by
  simp only [disableById, applyDisables, List.map_map]
  refine List.map_congr_left fun x _ => ?_
  by_cases h1 : x.id ∈ ds
  · by_cases h2 : x.id = i
    · subst h2; simp [h1]
    · simp [h1, h2]
  · by_cases h2 : x.id = i
    · subst h2; simp [h1]
    · simp [h1, h2]

theorem mem_applyDisables_of_not_mem {a : Alert} {l : List Alert} {ds : List Nat}
    (ha : a ∈ l) (hid : a.id ∉ ds) : a ∈ applyDisables ds l := by
  refine List.mem_map.2 ⟨a, ha, ?_⟩
  simp [hid]

theorem applyDisables_enabled_false {x : Alert} {l : List Alert} {ds : List Nat}
    (hx : x ∈ applyDisables ds l) (hid : x.id ∈ ds) : x.enabled = false := by
  rcases List.mem_map.1 hx with ⟨y, hy, hxy⟩
  by_cases h : y.id ∈ ds
  · rw [if_pos h] at hxy
    subst hxy
    rfl
  · rw [if_neg h] at hxy
    subst hxy
    exact absurd hid h

theorem mem_of_mem_applyDisables {x : Alert} {l : List Alert} {ds : List Nat}
    (hx : x ∈ applyDisables ds l) (hid : x.id ∉ ds) : x ∈ l := by
  rcases List.mem_map.1 hx with ⟨y, hy, hxy⟩
  by_cases h : y.id ∈ ds
  · rw [if_pos h] at hxy
    subst hxy
    exact absurd h (by simpa using hid)
  · rw [if_neg h] at hxy
    subst hxy
    exact hy

/-! ### Lemmas about the price cache -/

theorem find?_filter_ne {s s' : String} (h : ¬s = s') (c : Cache) :
    List.find? (fun e => e.1 == s) (c.filter (fun e => !(e.1 == s'))) =
      List.find? (fun e => e.1 == s) c := by
  induction c with
  | nil => rfl
  | cons e rest ih =>
      by_cases he : e.1 = s'
      · have hmiss : ¬((e.1 == s) = true) := by
          simp [beq_iff_eq, he]
          exact fun q => h q.symm
        rw [List.filter_cons, if_neg (by simp [he]), ih,
          @List.find?_cons_of_neg _ (fun e => e.1 == s) e rest hmiss]
      · rw [List.filter_cons, if_pos (by simp [he])]
        by_cases hes : e.1 = s
        · have hp : ((e.1 == s) = true) := by simp [hes]
          rw [@List.find?_cons_of_pos _ (fun e => e.1 == s) e _ hp,
            @List.find?_cons_of_pos _ (fun e => e.1 == s) e rest hp]
        · have hn : ¬((e.1 == s) = true) := by simp [hes]
          rw [@List.find?_cons_of_neg _ (fun e => e.1 == s) e _ hn,
            @List.find?_cons_of_neg _ (fun e => e.1 == s) e rest hn, ih]

theorem cacheLookup_insert_ne {s s' : String} (c : Cache) (v : ℚ × ℚ) (h : ¬s = s') :
    cacheLookup (cacheInsert c s' v) s = cacheLookup c s := by
  unfold cacheLookup cacheInsert
  have hh : ¬((((s', v) : String × ℚ × ℚ).1 == s) = true) := by
    simp [beq_iff_eq]
    exact fun q => h q.symm
  rw [@List.find?_cons_of_neg _ (fun e => e.1 == s) (s', v) _ hh, find?_filter_ne h]

@[simp] theorem fetchFresh_fst (f : String → Option ℚ) (n : ℚ) (c : Cache) (s : String) :
    (fetchFresh f n c s).1 = f s := by
  rcases hfs : f s with _ | p
  · simp [fetchFresh, hfs]
  · simp only [fetchFresh, hfs]
    split <;> rfl

@[simp] theorem fetchFresh_flag (f : String → Option ℚ) (n : ℚ) (c : Cache) (s : String) :
    (fetchFresh f n c s).2.2 = true := by
  rcases hfs : f s with _ | p
  · simp [fetchFresh, hfs]
  · simp only [fetchFresh, hfs]
    split <;> rfl

theorem fetchFresh_cacheLookup_ne (f : String → Option ℚ) (n : ℚ) (c : Cache)
    {s s' : String} (h : ¬s' = s) :
    cacheLookup (fetchFresh f n c s).2.1 s' = cacheLookup c s' := by
  rcases hfs : f s with _ | p
  · simp [fetchFresh, hfs]
  · simp only [fetchFresh, hfs]
    split
    · exact cacheLookup_insert_ne c _ h
    · rfl

theorem gcp_cacheLookup_ne (f : String → Option ℚ) (n : ℚ) (c : Cache)
    {s s' : String} (h : ¬s' = s) :
    cacheLookup (get_cached_price f n c s).2.1 s' = cacheLookup c s' := by
  rcases hcl : cacheLookup c s with _ | ⟨p, t⟩
  · simp only [get_cached_price, hcl]
    exact fetchFresh_cacheLookup_ne f n c h
  · simp only [get_cached_price, hcl]
    split
    · rfl
    · exact fetchFresh_cacheLookup_ne f n c h

theorem gcp_congr (f : String → Option ℚ) (n : ℚ) {c₁ c₂ : Cache} {s : String}
    (h : cacheLookup c₁ s = cacheLookup c₂ s) :
    (get_cached_price f n c₁ s).1 = (get_cached_price f n c₂ s).1 ∧
      (get_cached_price f n c₁ s).2.2 = (get_cached_price f n c₂ s).2.2 := by
  rcases hcl : cacheLookup c₂ s with _ | pt
  · have h1 : cacheLookup c₁ s = none := h.trans hcl
    simp [get_cached_price, h1, hcl]
  · have h1 : cacheLookup c₁ s = some pt := h.trans hcl
    rcases pt with ⟨p, t⟩
    simp only [get_cached_price, h1, hcl]
    split <;> simp

/-! ### A generic fold-invariant principle for tick states -/

theorem foldl_rec {α : Type} (f : TickSt → α → TickSt) (P : TickSt → Prop)
    (hf : ∀ st x, P st → P (f st x)) :
    ∀ (l : List α) (st : TickSt), P st → P (l.foldl f st) := by
  intro l
  induction l with
  | nil => intro st h; exact h
  | cons x xs ih => intro st h; exact ih _ (hf st x h)

@[simp] theorem none_beq_some_nat (n : Nat) : ((none : Option Nat) == some n) = false := rfl

@[simp] theorem some_beq_some_nat (m n : Nat) : ((some m : Option Nat) == some n) = (m == n) := rfl

/-! ### Lemmas about processing one alert -/

theorem pa_aborted_id (env : Env) (store : Store) (p : ℚ) (st : TickSt) (a : Alert)
    (h : st.aborted = true) : processAlert env store p st a = st := by
  simp only [processAlert]
  rw [if_pos h]

theorem pa_cache (env : Env) (store : Store) (p : ℚ) (st : TickSt) (a : Alert) :
    (processAlert env store p st a).cache = st.cache := by
  simp only [processAlert]
  repeat' split
  all_goals simp

theorem pa_lookups (env : Env) (store : Store) (p : ℚ) (st : TickSt) (a : Alert) :
    (processAlert env store p st a).lookups = st.lookups := by
  simp only [processAlert]
  repeat' split
  all_goals simp

theorem pa_fetched (env : Env) (store : Store) (p : ℚ) (st : TickSt) (a : Alert) :
    (processAlert env store p st a).fetched = st.fetched := by
  simp only [processAlert]
  repeat' split
  all_goals simp

theorem pa_aborted_none (env : Env) (store : Store) (p : ℚ) (st : TickSt) (a : Alert)
    (h : env.failAt = none) : (processAlert env store p st a).aborted = st.aborted := by
  simp only [processAlert]
  repeat' split
  all_goals simp_all

theorem pa_notifs_mono (env : Env) (store : Store) (p : ℚ) (st : TickSt) (a : Alert)
    {x : Nat × Bool} (hx : x ∈ st.notifs) : x ∈ (processAlert env store p st a).notifs := by
  simp only [processAlert]
  repeat' split
  all_goals simp [hx]

theorem pa_disabled_mono (env : Env) (store : Store) (p : ℚ) (st : TickSt) (a : Alert)
    {d : Nat} (hd : d ∈ st.disabled) : d ∈ (processAlert env store p st a).disabled := by
  simp only [processAlert]
  repeat' split
  all_goals simp [hd]

theorem pa_notifs_sub (env : Env) (store : Store) (p : ℚ) (st : TickSt) (a : Alert) :
    ∀ x ∈ (processAlert env store p st a).notifs,
      x ∈ st.notifs ∨ (x.1 = a.id ∧ sendGate env store a p) := by
  intro x hx
  simp only [processAlert] at hx
  repeat' split at hx
  all_goals try simp only [storeOp_snd_notifs, List.mem_append, List.mem_singleton] at hx
  all_goals try exact Or.inl hx
  all_goals
    rcases hx with hx | rfl
    · exact Or.inl hx
    · exact Or.inr ⟨rfl, by simp_all [sendGate]⟩

theorem pa_disabled_sub (env : Env) (store : Store) (p : ℚ) (st : TickSt) (a : Alert) :
    ∀ d ∈ (processAlert env store p st a).disabled,
      d ∈ st.disabled ∨ (d = a.id ∧ disableGate env store a p) := by
  intro d hd
  simp only [processAlert] at hd
  repeat' split at hd
  all_goals try simp only [storeOp_snd_disabled, List.mem_append, List.mem_singleton] at hd
  all_goals try exact Or.inl hd
  all_goals
    rcases hd with hd | rfl
    · exact Or.inl hd
    · exact Or.inr ⟨rfl, by simp_all [disableGate]⟩

theorem pa_alerts_shape (env : Env) (store : Store) (p : ℚ) (st : TickSt) (a : Alert)
    {base : List Alert} (h : st.alerts = applyDisables st.disabled base) :
    (processAlert env store p st a).alerts =
      applyDisables (processAlert env store p st a).disabled base := by
  simp only [processAlert]
  repeat' split
  all_goals simp [h, disableById_applyDisables]

theorem pa_progress (env : Env) (store : Store) (p : ℚ) (st : TickSt) (a : Alert)
    {stg : Settings} {u : User}
    (hab : st.aborted = false) (hfail : env.failAt = none)
    (htrig : triggerEval a.type a.target p = true)
    (hs : findSettings store a.username = some stg)
    (hu : findUser store a.username = some u)
    (he : eligSkip env.nowDt u = false) :
    a.id ∈ (processAlert env store p st a).disabled := by
  simp only [processAlert, hs, hu]
  rw [if_neg (by simp [hab]), if_pos htrig, if_neg (by simp [hfail]),
    if_neg (by simp [hfail]), if_neg (by simp [he]), if_neg (by simp [hfail])]
  split <;> simp

theorem storeOp_opInv (k : Nat) (w : Bool) (st : TickSt)
    (hab : st.aborted = false) (h : OpInv k st) : OpInv k (storeOp (some k) w st).2 := by
  rcases h with ⟨h1, h2⟩
  constructor
  · intro hab'
    simp only [storeOp_snd_aborted, hab, Bool.false_or] at hab'
    simp only [storeOp_snd_opIdx]
    have : ¬ st.opIdx = k := by
      intro hk
      simp [hk] at hab'
    have := h1 hab
    omega
  · simp only [storeOp_snd_opIdx]
    have := h1 hab
    omega

theorem pa_opInv (env : Env) (store : Store) (p : ℚ) (st : TickSt) (a : Alert)
    {k : Nat} (hfa : env.failAt = some k) (h : OpInv k st) :
    OpInv k (processAlert env store p st a) := by
  simp only [processAlert, hfa]
  repeat' split
  all_goals
    simp_all only [OpInv, storeOp_snd_opIdx, storeOp_snd_aborted, storeOp_fst,
      some_beq_some_nat, Bool.not_eq_false, Bool.not_eq_true, Bool.or_eq_true,
      Bool.or_eq_false_iff, beq_iff_eq, TickSt.mk.injEq]
  all_goals
    constructor
    all_goals simp_all
    all_goals omega

/-! ### Lemmas about the fold over one symbol group -/

theorem foldA_cache (env : Env) (store : Store) (p : ℚ) :
    ∀ (l : List Alert) (st : TickSt),
      (l.foldl (processAlert env store p) st).cache = st.cache := by
  intro l
  induction l with
  | nil => intro st; rfl
  | cons b bs ih => intro st; rw [List.foldl_cons, ih, pa_cache]

theorem foldA_lookups (env : Env) (store : Store) (p : ℚ) :
    ∀ (l : List Alert) (st : TickSt),
      (l.foldl (processAlert env store p) st).lookups = st.lookups := by
  intro l
  induction l with
  | nil => intro st; rfl
  | cons b bs ih => intro st; rw [List.foldl_cons, ih, pa_lookups]

theorem foldA_fetched (env : Env) (store : Store) (p : ℚ) :
    ∀ (l : List Alert) (st : TickSt),
      (l.foldl (processAlert env store p) st).fetched = st.fetched := by
  intro l
  induction l with
  | nil => intro st; rfl
  | cons b bs ih => intro st; rw [List.foldl_cons, ih, pa_fetched]

theorem foldA_aborted_none (env : Env) (store : Store) (p : ℚ) (h : env.failAt = none) :
    ∀ (l : List Alert) (st : TickSt),
      (l.foldl (processAlert env store p) st).aborted = st.aborted := by
  intro l
  induction l with
  | nil => intro st; rfl
  | cons b bs ih => intro st; rw [List.foldl_cons, ih, pa_aborted_none _ _ _ _ _ h]

theorem foldA_notifs_mono (env : Env) (store : Store) (p : ℚ) (l : List Alert) (st : TickSt)
    {x : Nat × Bool} (hx : x ∈ st.notifs) :
    x ∈ (l.foldl (processAlert env store p) st).notifs :=
  foldl_rec _ (fun s => x ∈ s.notifs) (fun s b h => pa_notifs_mono env store p s b h) l st hx

theorem foldA_disabled_mono (env : Env) (store : Store) (p : ℚ) (l : List Alert) (st : TickSt)
    {d : Nat} (hd : d ∈ st.disabled) :
    d ∈ (l.foldl (processAlert env store p) st).disabled :=
  foldl_rec _ (fun s => d ∈ s.disabled) (fun s b h => pa_disabled_mono env store p s b h) l st hd

theorem foldA_notifs_sub (env : Env) (store : Store) (p : ℚ) :
    ∀ (l : List Alert) (st : TickSt),
      ∀ x ∈ (l.foldl (processAlert env store p) st).notifs,
        x ∈ st.notifs ∨ ∃ a ∈ l, x.1 = a.id ∧ sendGate env store a p := by
  intro l
  induction l with
  | nil => intro st x hx; exact Or.inl hx
  | cons b bs ih =>
      intro st x hx
      rw [List.foldl_cons] at hx
      rcases ih _ x hx with hx' | ⟨a, ha, h1, h2⟩
      · rcases pa_notifs_sub env store p st b x hx' with h | ⟨h1, h2⟩
        · exact Or.inl h
        · exact Or.inr ⟨b, List.mem_cons_self b bs, h1, h2⟩
      · exact Or.inr ⟨a, List.mem_cons_of_mem b ha, h1, h2⟩

theorem foldA_disabled_sub (env : Env) (store : Store) (p : ℚ) :
    ∀ (l : List Alert) (st : TickSt),
      ∀ d ∈ (l.foldl (processAlert env store p) st).disabled,
        d ∈ st.disabled ∨ ∃ a ∈ l, d = a.id ∧ disableGate env store a p := by
  intro l
  induction l with
  | nil => intro st d hd; exact Or.inl hd
  | cons b bs ih =>
      intro st d hd
      rw [List.foldl_cons] at hd
      rcases ih _ d hd with hd' | ⟨a, ha, h1, h2⟩
      · rcases pa_disabled_sub env store p st b d hd' with h | ⟨h1, h2⟩
        · exact Or.inl h
        · exact Or.inr ⟨b, List.mem_cons_self b bs, h1, h2⟩
      · exact Or.inr ⟨a, List.mem_cons_of_mem b ha, h1, h2⟩

theorem foldA_alerts_shape (env : Env) (store : Store) (p : ℚ) (l : List Alert) (st : TickSt)
    {base : List Alert} (h : st.alerts = applyDisables st.disabled base) :
    (l.foldl (processAlert env store p) st).alerts =
      applyDisables (l.foldl (processAlert env store p) st).disabled base :=
  foldl_rec _ (fun s => s.alerts = applyDisables s.disabled base)
    (fun s b hp => pa_alerts_shape env store p s b hp) l st h

theorem foldA_progress (env : Env) (store : Store) (p : ℚ) {a : Alert}
    {stg : Settings} {u : User}
    (hfail : env.failAt = none)
    (htrig : triggerEval a.type a.target p = true)
    (hs : findSettings store a.username = some stg)
    (hu : findUser store a.username = some u)
    (he : eligSkip env.nowDt u = false) :
    ∀ (l : List Alert) (st : TickSt), st.aborted = false → a ∈ l →
      a.id ∈ (l.foldl (processAlert env store p) st).disabled := by
  intro l
  induction l with
  | nil => intro st _ ha; exact absurd ha (List.not_mem_nil a)
  | cons b bs ih =>
      intro st hab ha
      rw [List.foldl_cons]
      rcases List.mem_cons.1 ha with rfl | ha'
      · exact foldA_disabled_mono env store p bs _
          (pa_progress env store p st a hab hfail htrig hs hu he)
      · exact ih _ (by rw [pa_aborted_none _ _ _ _ _ hfail]; exact hab) ha'

theorem foldA_opInv (env : Env) (store : Store) (p : ℚ) (l : List Alert) (st : TickSt)
    {k : Nat} (hfa : env.failAt = some k) (h : OpInv k st) :
    OpInv k (l.foldl (processAlert env store p) st) :=
  foldl_rec _ (OpInv k) (fun s b hp => pa_opInv env store p s b hfa hp) l st h

/-! ### Lemmas about processing one symbol group -/

theorem pg_aborted_id (env : Env) (store : Store) (st : TickSt)
    (grp : String × List Alert) (h : st.aborted = true) :
    processGroup env store st grp = st := by
  simp only [processGroup]
  rw [if_pos h]

theorem pg_cacheLookup_ne (env : Env) (store : Store) (st : TickSt)
    (grp : String × List Alert) {k : String} (h : ¬k = grp.1) :
    cacheLookup (processGroup env store st grp).cache k = cacheLookup st.cache k := by
  by_cases hab : st.aborted = true
  · rw [pg_aborted_id env store st grp hab]
  · simp only [processGroup]
    rw [if_neg hab]
    rcases hres : (get_cached_price env.fetch env.nowMono st.cache grp.1).1 with _ | p
    · simp only [hres]
      exact gcp_cacheLookup_ne _ _ _ h
    · simp only [hres]
      split
      · rw [foldA_cache]
        exact gcp_cacheLookup_ne _ _ _ h
      · exact gcp_cacheLookup_ne _ _ _ h

theorem pg_aborted_none (env : Env) (store : Store) (st : TickSt)
    (grp : String × List Alert) (hfail : env.failAt = none) :
    (processGroup env store st grp).aborted = st.aborted := by
  by_cases hab : st.aborted = true
  · rw [pg_aborted_id env store st grp hab]
  · simp only [processGroup]
    rw [if_neg hab]
    rcases hres : (get_cached_price env.fetch env.nowMono st.cache grp.1).1 with _ | p
    · simp only [hres]
    · simp only [hres]
      split
      · rw [foldA_aborted_none _ _ _ hfail]
      · rfl

theorem pg_lookups (env : Env) (store : Store) (st : TickSt)
    (grp : String × List Alert) (hab : st.aborted = false) :
    (processGroup env store st grp).lookups = st.lookups ++ [grp.1] := by
  simp only [processGroup]
  rw [if_neg (by simp [hab])]
  rcases hres : (get_cached_price env.fetch env.nowMono st.cache grp.1).1 with _ | p
  · simp only [hres]
  · simp only [hres]
    split
    · rw [foldA_lookups]
    · rfl

theorem pg_notifs_mono (env : Env) (store : Store) (st : TickSt)
    (grp : String × List Alert) {x : Nat × Bool} (hx : x ∈ st.notifs) :
    x ∈ (processGroup env store st grp).notifs := by
  by_cases hab : st.aborted = true
  · rw [pg_aborted_id env store st grp hab]; exact hx
  · simp only [processGroup]
    rw [if_neg hab]
    rcases hres : (get_cached_price env.fetch env.nowMono st.cache grp.1).1 with _ | p
    · simp only [hres]; exact hx
    · simp only [hres]
      split
      · exact foldA_notifs_mono _ _ _ _ _ hx
      · exact hx

theorem pg_disabled_mono (env : Env) (store : Store) (st : TickSt)
    (grp : String × List Alert) {d : Nat} (hd : d ∈ st.disabled) :
    d ∈ (processGroup env store st grp).disabled := by
  by_cases hab : st.aborted = true
  · rw [pg_aborted_id env store st grp hab]; exact hd
  · simp only [processGroup]
    rw [if_neg hab]
    rcases hres : (get_cached_price env.fetch env.nowMono st.cache grp.1).1 with _ | p
    · simp only [hres]; exact hd
    · simp only [hres]
      split
      · exact foldA_disabled_mono _ _ _ _ _ hd
      · exact hd

theorem pg_notifs_sub (env : Env) (store : Store) (st : TickSt)
    (grp : String × List Alert) :
    ∀ x ∈ (processGroup env store st grp).notifs,
      x ∈ st.notifs ∨ ∃ a ∈ grp.2, x.1 = a.id ∧
        ∃ p, (get_cached_price env.fetch env.nowMono st.cache grp.1).1 = some p ∧ p ≠ 0 ∧
          sendGate env store a p := by
  intro x hx
  by_cases hab : st.aborted = true
  · rw [pg_aborted_id env store st grp hab] at hx; exact Or.inl hx
  · simp only [processGroup] at hx
    rw [if_neg hab] at hx
    rcases hres : (get_cached_price env.fetch env.nowMono st.cache grp.1).1 with _ | p
    · simp only [hres] at hx; exact Or.inl hx
    · simp only [hres] at hx
      by_cases hp : p ≠ 0
      · rw [if_pos hp] at hx
        rcases foldA_notifs_sub env store p _ _ x hx with h | ⟨a, ha, h1, h2⟩
        · exact Or.inl h
        · exact Or.inr ⟨a, ha, h1, p, rfl, hp, h2⟩
      · rw [if_neg hp] at hx; exact Or.inl hx

theorem pg_disabled_sub (env : Env) (store : Store) (st : TickSt)
    (grp : String × List Alert) :
    ∀ d ∈ (processGroup env store st grp).disabled,
      d ∈ st.disabled ∨ ∃ a ∈ grp.2, d = a.id ∧
        ∃ p, (get_cached_price env.fetch env.nowMono st.cache grp.1).1 = some p ∧ p ≠ 0 ∧
          disableGate env store a p := by
  intro d hd
  by_cases hab : st.aborted = true
  · rw [pg_aborted_id env store st grp hab] at hd; exact Or.inl hd
  · simp only [processGroup] at hd
    rw [if_neg hab] at hd
    rcases hres : (get_cached_price env.fetch env.nowMono st.cache grp.1).1 with _ | p
    · simp only [hres] at hd; exact Or.inl hd
    · simp only [hres] at hd
      by_cases hp : p ≠ 0
      · rw [if_pos hp] at hd
        rcases foldA_disabled_sub env store p _ _ d hd with h | ⟨a, ha, h1, h2⟩
        · exact Or.inl h
        · exact Or.inr ⟨a, ha, h1, p, rfl, hp, h2⟩
      · rw [if_neg hp] at hd; exact Or.inl hd

theorem pg_alerts_shape (env : Env) (store : Store) (st : TickSt)
    (grp : String × List Alert) {base : List Alert}
    (h : st.alerts = applyDisables st.disabled base) :
    (processGroup env store st grp).alerts =
      applyDisables (processGroup env store st grp).disabled base := by
  by_cases hab : st.aborted = true
  · rw [pg_aborted_id env store st grp hab]; exact h
  · simp only [processGroup]
    rw [if_neg hab]
    rcases hres : (get_cached_price env.fetch env.nowMono st.cache grp.1).1 with _ | p
    · simp only [hres]; exact h
    · simp only [hres]
      split
      · exact foldA_alerts_shape env store p _ _ h
      · exact h

theorem pg_sublist (env : Env) (store : Store) (st : TickSt)
    (grp : String × List Alert) (h : st.fetched.Sublist st.lookups) :
    (processGroup env store st grp).fetched.Sublist (processGroup env store st grp).lookups := by
  by_cases hab : st.aborted = true
  · rw [pg_aborted_id env store st grp hab]; exact h
  · simp only [processGroup]
    rw [if_neg hab]
    have hsub : (st.fetched ++
        (if (get_cached_price env.fetch env.nowMono st.cache grp.1).2.2 then [grp.1] else
          [])).Sublist (st.lookups ++ [grp.1]) := by
      refine List.Sublist.append h ?_
      split
      · exact List.Sublist.refl _
      · exact List.nil_sublist _
    rcases hres : (get_cached_price env.fetch env.nowMono st.cache grp.1).1 with _ | p
    · simp only [hres]; exact hsub
    · simp only [hres]
      split
      · rw [foldA_fetched, foldA_lookups]; exact hsub
      · exact hsub

theorem pg_progress (env : Env) (store : Store) (st : TickSt)
    (grp : String × List Alert) {a : Alert} {p : ℚ} {stg : Settings} {u : User}
    (hab : st.aborted = false) (hfail : env.failAt = none) (ha : a ∈ grp.2)
    (hres : (get_cached_price env.fetch env.nowMono st.cache grp.1).1 = some p)
    (hp : p ≠ 0)
    (htrig : triggerEval a.type a.target p = true)
    (hs : findSettings store a.username = some stg)
    (hu : findUser store a.username = some u)
    (he : eligSkip env.nowDt u = false) :
    a.id ∈ (processGroup env store st grp).disabled := by
  simp only [processGroup]
  rw [if_neg (by simp [hab])]
  simp only [hres]
  rw [if_pos hp]
  exact foldA_progress env store p hfail htrig hs hu he _ _ hab ha

theorem pg_opInv (env : Env) (store : Store) (st : TickSt)
    (grp : String × List Alert) {k : Nat} (hfa : env.failAt = some k)
    (h : OpInv k st) : OpInv k (processGroup env store st grp) := by
  by_cases hab : st.aborted = true
  · rw [pg_aborted_id env store st grp hab]; exact h
  · simp only [processGroup]
    rw [if_neg hab]
    rcases hres : (get_cached_price env.fetch env.nowMono st.cache grp.1).1 with _ | p
    · simp only [hres]; exact h
    · simp only [hres]
      split
      · exact foldA_opInv env store p _ _ hfa h
      · exact h

/-! ### Lemmas about the fold over all symbol groups -/

theorem foldG_aborted_none (env : Env) (store : Store) (hfail : env.failAt = none) :
    ∀ (gs : List (String × List Alert)) (st : TickSt),
      (gs.foldl (processGroup env store) st).aborted = st.aborted := by
  intro gs
  induction gs with
  | nil => intro st; rfl
  | cons pr rest ih => intro st; rw [List.foldl_cons, ih, pg_aborted_none env store st pr hfail]

theorem foldG_notifs_sub (env : Env) (store : Store) (cache0 : Cache) :
    ∀ (gs : List (String × List Alert)) (st : TickSt),
      (gs.map Prod.fst).Nodup →
      (∀ k ∈ gs.map Prod.fst, cacheLookup st.cache k = cacheLookup cache0 k) →
      ∀ x ∈ (gs.foldl (processGroup env store) st).notifs,
        x ∈ st.notifs ∨ ∃ pr ∈ gs, ∃ a ∈ pr.2, x.1 = a.id ∧
          ∃ p, (get_cached_price env.fetch env.nowMono cache0 pr.1).1 = some p ∧ p ≠ 0 ∧
            sendGate env store a p := by
  intro gs
  induction gs with
  | nil => intro st _ _ x hx; exact Or.inl hx
  | cons pr rest ih =>
      intro st hnd hframe x hx
      rw [List.foldl_cons] at hx
      have hnd0 := List.nodup_cons.1 (by rw [List.map_cons] at hnd; exact hnd)
      have hframe' : ∀ k ∈ rest.map Prod.fst,
          cacheLookup (processGroup env store st pr).cache k = cacheLookup cache0 k := by
        intro k hk
        have hkne : ¬k = pr.1 := fun e => hnd0.1 (e ▸ hk)
        rw [pg_cacheLookup_ne env store st pr hkne]
        exact hframe k (List.mem_cons_of_mem _ hk)
      rcases ih _ hnd0.2 hframe' x hx with hx' | ⟨pr', hpr', a, ha, h1, p, hp1, hp2, hp3⟩
      · rcases pg_notifs_sub env store st pr x hx' with h | ⟨a, ha, h1, p, hp1, hp2, hp3⟩
        · exact Or.inl h
        · have hc := hframe pr.1 (by simp)
          have heq := (gcp_congr env.fetch env.nowMono hc).1
          exact Or.inr ⟨pr, List.mem_cons_self _ _, a, ha, h1, p, heq.symm.trans hp1, hp2, hp3⟩
      · exact Or.inr ⟨pr', List.mem_cons_of_mem _ hpr', a, ha, h1, p, hp1, hp2, hp3⟩

theorem foldG_disabled_sub (env : Env) (store : Store) (cache0 : Cache) :
    ∀ (gs : List (String × List Alert)) (st : TickSt),
      (gs.map Prod.fst).Nodup →
      (∀ k ∈ gs.map Prod.fst, cacheLookup st.cache k = cacheLookup cache0 k) →
      ∀ d ∈ (gs.foldl (processGroup env store) st).disabled,
        d ∈ st.disabled ∨ ∃ pr ∈ gs, ∃ a ∈ pr.2, d = a.id ∧
          ∃ p, (get_cached_price env.fetch env.nowMono cache0 pr.1).1 = some p ∧ p ≠ 0 ∧
            disableGate env store a p := by
  intro gs
  induction gs with
  | nil => intro st _ _ d hd; exact Or.inl hd
  | cons pr rest ih =>
      intro st hnd hframe d hd
      rw [List.foldl_cons] at hd
      have hnd0 := List.nodup_cons.1 (by rw [List.map_cons] at hnd; exact hnd)
      have hframe' : ∀ k ∈ rest.map Prod.fst,
          cacheLookup (processGroup env store st pr).cache k = cacheLookup cache0 k := by
        intro k hk
        have hkne : ¬k = pr.1 := fun e => hnd0.1 (e ▸ hk)
        rw [pg_cacheLookup_ne env store st pr hkne]
        exact hframe k (List.mem_cons_of_mem _ hk)
      rcases ih _ hnd0.2 hframe' d hd with hd' | ⟨pr', hpr', a, ha, h1, p, hp1, hp2, hp3⟩
      · rcases pg_disabled_sub env store st pr d hd' with h | ⟨a, ha, h1, p, hp1, hp2, hp3⟩
        · exact Or.inl h
        · have hc := hframe pr.1 (by simp)
          have heq := (gcp_congr env.fetch env.nowMono hc).1
          exact Or.inr ⟨pr, List.mem_cons_self _ _, a, ha, h1, p, heq.symm.trans hp1, hp2, hp3⟩
      · exact Or.inr ⟨pr', List.mem_cons_of_mem _ hpr', a, ha, h1, p, hp1, hp2, hp3⟩

theorem foldG_progress (env : Env) (store : Store) (cache0 : Cache)
    {a : Alert} {p : ℚ} {stg : Settings} {u : User}
    (hfail : env.failAt = none)
    (hres : (get_cached_price env.fetch env.nowMono cache0 a.symbol).1 = some p)
    (hp : p ≠ 0)
    (htrig : triggerEval a.type a.target p = true)
    (hs : findSettings store a.username = some stg)
    (hu : findUser store a.username = some u)
    (he : eligSkip env.nowDt u = false) :
    ∀ (gs : List (String × List Alert)) (st : TickSt) (g : List Alert),
      (a.symbol, g) ∈ gs → a ∈ g → (gs.map Prod.fst).Nodup →
      (∀ k ∈ gs.map Prod.fst, cacheLookup st.cache k = cacheLookup cache0 k) →
      st.aborted = false →
      a.id ∈ (gs.foldl (processGroup env store) st).disabled := by
  intro gs
  induction gs with
  | nil => intro st g hg _ _ _ _; exact absurd hg (List.not_mem_nil _)
  | cons pr rest ih =>
      intro st g hg ha hnd hframe hab
      rw [List.foldl_cons]
      have hnd0 := List.nodup_cons.1 (by rw [List.map_cons] at hnd; exact hnd)
      rcases List.mem_cons.1 hg with rfl | hg'
      · have hc := hframe a.symbol (by simp)
        have heq := (gcp_congr env.fetch env.nowMono hc).1
        have hres' : (get_cached_price env.fetch env.nowMono st.cache a.symbol).1 = some p :=
          heq.trans hres
        refine foldl_rec _ (fun s => a.id ∈ s.disabled)
          (fun s b h => pg_disabled_mono env store s b h) rest _ ?_
        exact pg_progress env store st (a.symbol, g) hab hfail ha hres' hp htrig hs hu he
      · have hframe' : ∀ k ∈ rest.map Prod.fst,
            cacheLookup (processGroup env store st pr).cache k = cacheLookup cache0 k := by
          intro k hk
          have hkne : ¬k = pr.1 := fun e => hnd0.1 (e ▸ hk)
          rw [pg_cacheLookup_ne env store st pr hkne]
          exact hframe k (List.mem_cons_of_mem _ hk)
        have hab' : (processGroup env store st pr).aborted = false := by
          rw [pg_aborted_none env store st pr hfail]; exact hab
        exact ih _ g hg' ha hnd0.2 hframe' hab'

theorem foldG_alerts_shape (env : Env) (store : Store)
    (gs : List (String × List Alert)) (st : TickSt) {base : List Alert}
    (h : st.alerts = applyDisables st.disabled base) :
    (gs.foldl (processGroup env store) st).alerts =
      applyDisables (gs.foldl (processGroup env store) st).disabled base :=
  foldl_rec _ (fun s => s.alerts = applyDisables s.disabled base)
    (fun s pr hp => pg_alerts_shape env store s pr hp) gs st h

theorem foldG_sublist (env : Env) (store : Store)
    (gs : List (String × List Alert)) (st : TickSt)
    (h : st.fetched.Sublist st.lookups) :
    (gs.foldl (processGroup env store) st).fetched.Sublist
      (gs.foldl (processGroup env store) st).lookups :=
  foldl_rec _ (fun s => s.fetched.Sublist s.lookups)
    (fun s pr hp => pg_sublist env store s pr hp) gs st h

theorem foldG_opInv (env : Env) (store : Store)
    (gs : List (String × List Alert)) (st : TickSt)
    {k : Nat} (hfa : env.failAt = some k) (h : OpInv k st) :
    OpInv k (gs.foldl (processGroup env store) st) :=
  foldl_rec _ (OpInv k) (fun s pr hp => pg_opInv env store s pr hfa hp) gs st h

theorem foldG_lookups (env : Env) (store : Store) (hfail : env.failAt = none) :
    ∀ (gs : List (String × List Alert)) (st : TickSt), st.aborted = false →
      (gs.foldl (processGroup env store) st).lookups = st.lookups ++ gs.map Prod.fst := by
  intro gs
  induction gs with
  | nil => intro st _; simp
  | cons pr rest ih =>
      intro st hab
      rw [List.foldl_cons]
      have hab' : (processGroup env store st pr).aborted = false := by
        rw [pg_aborted_none env store st pr hfail]; exact hab
      rw [ih _ hab', pg_lookups env store st pr hab]
      simp

/-! ### Lemmas about grouping by symbol -/

theorem addToGroups_keys (gs : List (String × List Alert)) (a : Alert) :
    (addToGroups gs a).map Prod.fst =
      if a.symbol ∈ gs.map Prod.fst then gs.map Prod.fst
      else gs.map Prod.fst ++ [a.symbol] := by
  induction gs with
  | nil => simp [addToGroups]
  | cons pr rest ih =>
      rcases pr with ⟨s, g⟩
      simp only [addToGroups]
      by_cases h : s = a.symbol
      · rw [if_pos h]
        simp [h]
      · rw [if_neg h]
        simp only [List.map_cons, ih]
        by_cases h2 : a.symbol ∈ rest.map Prod.fst
        · rw [if_pos h2, if_pos (by simp [h2])]
        · rw [if_neg h2, if_neg (by
            simp only [List.map_cons, List.mem_cons]
            rintro (he | hm)
            · exact h he.symm
            · exact h2 hm)]
          simp

theorem addToGroups_good {C : Alert → Prop} {a : Alert} (hC : C a) :
    ∀ gs : List (String × List Alert),
      (∀ pr ∈ gs, ∀ b ∈ pr.2, b.symbol = pr.1 ∧ C b) →
      ∀ pr ∈ addToGroups gs a, ∀ b ∈ pr.2, b.symbol = pr.1 ∧ C b := by
  intro gs
  induction gs with
  | nil =>
      intro _ pr hpr b hb
      simp only [addToGroups, List.mem_singleton] at hpr
      subst hpr
      simp only [List.mem_singleton] at hb
      subst hb
      exact ⟨rfl, hC⟩
  | cons pr0 rest ih =>
      rcases pr0 with ⟨s, g⟩
      intro hgs pr hpr b hb
      simp only [addToGroups] at hpr
      by_cases h : s = a.symbol
      · rw [if_pos h] at hpr
        rcases List.mem_cons.1 hpr with rfl | hpr'
        · rcases List.mem_append.1 hb with hb' | hb'
          · exact hgs (s, g) (List.mem_cons_self _ _) b hb'
          · rw [List.mem_singleton] at hb'
            subst hb'
            exact ⟨h.symm, hC⟩
        · exact hgs pr (List.mem_cons_of_mem _ hpr') b hb
      · rw [if_neg h] at hpr
        rcases List.mem_cons.1 hpr with rfl | hpr'
        · exact hgs (s, g) (List.mem_cons_self _ _) b hb
        · exact ih (fun q hq => hgs q (List.mem_cons_of_mem _ hq)) pr hpr' b hb

theorem addToGroups_pres (bAdd : Alert) :
    ∀ (gs : List (String × List Alert)) (a : Alert) (g : List Alert),
      (a.symbol, g) ∈ gs → a ∈ g →
      ∃ g', (a.symbol, g') ∈ addToGroups gs bAdd ∧ a ∈ g' := by
  intro gs
  induction gs with
  | nil => intro a g hg _; exact absurd hg (List.not_mem_nil _)
  | cons pr0 rest ih =>
      rcases pr0 with ⟨s, h0⟩
      intro a g hg ha
      simp only [addToGroups]
      by_cases h : s = bAdd.symbol
      · rw [if_pos h]
        rcases List.mem_cons.1 hg with heq | hg'
        · rcases Prod.mk.injEq .. ▸ heq with ⟨h1, h2⟩
          exact ⟨h0 ++ [bAdd], by rw [h1]; exact List.mem_cons_self _ _, List.mem_append.2 (Or.inl (h2 ▸ ha))⟩
        · exact ⟨g, List.mem_cons_of_mem _ hg', ha⟩
      · rw [if_neg h]
        rcases List.mem_cons.1 hg with heq | hg'
        · exact ⟨g, heq ▸ List.mem_cons_self _ _, ha⟩
        · rcases ih a g hg' ha with ⟨g', hg'', ha'⟩
          exact ⟨g', List.mem_cons_of_mem _ hg'', ha'⟩

theorem addToGroups_self (a : Alert) :
    ∀ gs : List (String × List Alert),
      ∃ g, (a.symbol, g) ∈ addToGroups gs a ∧ a ∈ g := by
  intro gs
  induction gs with
  | nil => exact ⟨[a], by simp [addToGroups]⟩
  | cons pr0 rest ih =>
      rcases pr0 with ⟨s, h0⟩
      simp only [addToGroups]
      by_cases h : s = a.symbol
      · rw [if_pos h]
        subst h
        exact ⟨h0 ++ [a], List.mem_cons_self _ _, List.mem_append.2 (Or.inr (by simp))⟩
      · rw [if_neg h]
        rcases ih with ⟨g, hg, ha⟩
        exact ⟨g, List.mem_cons_of_mem _ hg, ha⟩

theorem foldAdd_good {C : Alert → Prop} :
    ∀ (l : List Alert) (gs : List (String × List Alert)),
      (∀ pr ∈ gs, ∀ b ∈ pr.2, b.symbol = pr.1 ∧ C b) →
      (∀ b ∈ l, C b) →
      ∀ pr ∈ l.foldl addToGroups gs, ∀ b ∈ pr.2, b.symbol = pr.1 ∧ C b := by
  intro l
  induction l with
  | nil => intro gs hgs _; exact hgs
  | cons a l ih =>
      intro gs hgs hl
      rw [List.foldl_cons]
      exact ih _ (addToGroups_good (hl a (List.mem_cons_self _ _)) gs hgs)
        (fun b hb => hl b (List.mem_cons_of_mem _ hb))

theorem groupBySymbol_good (l : List Alert) :
    ∀ pr ∈ groupBySymbol l, ∀ b ∈ pr.2, b.symbol = pr.1 ∧ b ∈ l := by
  exact foldAdd_good l [] (by intro pr hpr; exact absurd hpr (List.not_mem_nil _))
    (fun b hb => hb)

theorem foldAdd_keys_nodup :
    ∀ (l : List Alert) (gs : List (String × List Alert)),
      ((gs.map Prod.fst).Nodup) → (((l.foldl addToGroups gs).map Prod.fst).Nodup) := by
  intro l
  induction l with
  | nil => intro gs h; exact h
  | cons a l ih =>
      intro gs h
      rw [List.foldl_cons]
      refine ih _ ?_
      rw [addToGroups_keys]
      split
      · exact h
      · rename_i hnm
        simp [List.nodup_append, h, hnm]

theorem groupBySymbol_keys_nodup (l : List Alert) :
    ((groupBySymbol l).map Prod.fst).Nodup :=
  foldAdd_keys_nodup l [] (by simp)

theorem foldAdd_keys_mem :
    ∀ (l : List Alert) (gs : List (String × List Alert)) (s : String),
      (s ∈ (l.foldl addToGroups gs).map Prod.fst ↔
        s ∈ gs.map Prod.fst ∨ ∃ a ∈ l, a.symbol = s) := by
  intro l
  induction l with
  | nil => intro gs s; simp
  | cons a l ih =>
      intro gs s
      rw [List.foldl_cons, ih, addToGroups_keys]
      split
      · rename_i hmem
        constructor
        · rintro (hs | ⟨b, hb, rfl⟩)
          · exact Or.inl hs
          · exact Or.inr ⟨b, List.mem_cons_of_mem a hb, rfl⟩
        · rintro (hs | ⟨b, hb, rfl⟩)
          · exact Or.inl hs
          · rcases List.mem_cons.1 hb with rfl | hb'
            · exact Or.inl hmem
            · exact Or.inr ⟨b, hb', rfl⟩
      · rename_i hnm
        constructor
        · rintro (hs | ⟨b, hb, rfl⟩)
          · rcases List.mem_append.1 hs with hs' | hs'
            · exact Or.inl hs'
            · rw [List.mem_singleton] at hs'
              exact Or.inr ⟨a, List.mem_cons_self _ _, hs'.symm⟩
          · exact Or.inr ⟨b, List.mem_cons_of_mem a hb, rfl⟩
        · rintro (hs | ⟨b, hb, rfl⟩)
          · exact Or.inl (List.mem_append.2 (Or.inl hs))
          · rcases List.mem_cons.1 hb with rfl | hb'
            · exact Or.inl (List.mem_append.2 (Or.inr (by simp)))
            · exact Or.inr ⟨b, hb', rfl⟩

theorem groupBySymbol_keys_mem (l : List Alert) (s : String) :
    s ∈ (groupBySymbol l).map Prod.fst ↔ ∃ a ∈ l, a.symbol = s := by
  rw [groupBySymbol, foldAdd_keys_mem]
  simp

theorem foldAdd_cover :
    ∀ (l : List Alert) (gs : List (String × List Alert)) (a : Alert),
      (a ∈ l ∨ ∃ g, (a.symbol, g) ∈ gs ∧ a ∈ g) →
      ∃ g, (a.symbol, g) ∈ l.foldl addToGroups gs ∧ a ∈ g := by
  intro l
  induction l with
  | nil =>
      intro gs a h
      rcases h with h | h
      · exact absurd h (List.not_mem_nil _)
      · exact h
  | cons b l ih =>
      intro gs a h
      rw [List.foldl_cons]
      rcases h with h | ⟨g, hg, ha⟩
      · rcases List.mem_cons.1 h with rfl | h'
        · exact ih _ a (Or.inr (addToGroups_self a gs))
        · exact ih _ a (Or.inl h')
      · rcases addToGroups_pres b gs a g hg ha with ⟨g', hg', ha'⟩
        exact ih _ a (Or.inr ⟨g', hg', ha'⟩)

theorem groupBySymbol_cover {l : List Alert} {a : Alert} (ha : a ∈ l) :
    ∃ g, (a.symbol, g) ∈ groupBySymbol l ∧ a ∈ g :=
  foldAdd_cover l [] a (Or.inl ha)

/-! ### Tick-level lemmas -/

theorem job_notifs_sound (env : Env) (store : Store) (cache : Cache) :
    ∀ x ∈ (check_alerts_job env store cache).notifs,
      ∃ b, b ∈ store.alerts ∧ b.enabled = true ∧ b.id = x.1 ∧
        ∃ p, priceOutcome env cache b.symbol = some p ∧ p ≠ 0 ∧
          sendGate env store b p := by
  intro x hx
  simp only [check_alerts_job] at hx
  by_cases hm : marketOpen env.ny env.syd = true
  case neg =>
      rw [if_neg hm] at hx
      simp [initTick] at hx
  rw [if_pos hm] at hx
  by_cases hr : (storeOp env.failAt false (initTick store cache)).1 = false
  case pos =>
      rw [if_pos hr] at hx
      simp [initTick] at hx
  rw [if_neg hr] at hx
  by_cases hemp : (store.alerts.filter (·.enabled)).isEmpty = true
  case pos =>
      rw [if_pos hemp] at hx
      simp [initTick] at hx
  rw [if_neg hemp] at hx
  rcases foldG_notifs_sub env store cache _ _
      (groupBySymbol_keys_nodup _) (fun k _ => rfl) x hx with
    h | ⟨pr, hpr, a, ha, h1, p, hp1, hp2, hp3⟩
  · simp [initTick] at h
  · have hga := groupBySymbol_good _ pr hpr a ha
    have hmem := List.mem_filter.1 hga.2
    refine ⟨a, hmem.1, by simpa using hmem.2, h1.symm, p, ?_, hp2, hp3⟩
    rw [priceOutcome, hga.1]
    exact hp1

theorem job_disabled_sound (env : Env) (store : Store) (cache : Cache) :
    ∀ d ∈ (check_alerts_job env store cache).disabled,
      ∃ b, b ∈ store.alerts ∧ b.enabled = true ∧ b.id = d ∧
        ∃ p, priceOutcome env cache b.symbol = some p ∧ p ≠ 0 ∧
          disableGate env store b p := by
  intro d hd
  simp only [check_alerts_job] at hd
  by_cases hm : marketOpen env.ny env.syd = true
  case neg =>
      rw [if_neg hm] at hd
      simp [initTick] at hd
  rw [if_pos hm] at hd
  by_cases hr : (storeOp env.failAt false (initTick store cache)).1 = false
  case pos =>
      rw [if_pos hr] at hd
      simp [initTick] at hd
  rw [if_neg hr] at hd
  by_cases hemp : (store.alerts.filter (·.enabled)).isEmpty = true
  case pos =>
      rw [if_pos hemp] at hd
      simp [initTick] at hd
  rw [if_neg hemp] at hd
  rcases foldG_disabled_sub env store cache _ _
      (groupBySymbol_keys_nodup _) (fun k _ => rfl) d hd with
    h | ⟨pr, hpr, a, ha, h1, p, hp1, hp2, hp3⟩
  · simp [initTick] at h
  · have hga := groupBySymbol_good _ pr hpr a ha
    have hmem := List.mem_filter.1 hga.2
    refine ⟨a, hmem.1, by simpa using hmem.2, h1.symm, p, ?_, hp2, hp3⟩
    rw [priceOutcome, hga.1]
    exact hp1

theorem job_alerts_shape (env : Env) (store : Store) (cache : Cache) :
    (check_alerts_job env store cache).alerts =
      applyDisables (check_alerts_job env store cache).disabled store.alerts := by
  simp only [check_alerts_job]
  by_cases hm : marketOpen env.ny env.syd = true
  case neg =>
      rw [if_neg hm]
      simp [initTick]
  rw [if_pos hm]
  by_cases hr : (storeOp env.failAt false (initTick store cache)).1 = false
  case pos =>
      rw [if_pos hr]
      simp [initTick]
  rw [if_neg hr]
  by_cases hemp : (store.alerts.filter (·.enabled)).isEmpty = true
  case pos =>
      rw [if_pos hemp]
      simp [initTick]
  rw [if_neg hemp]
  exact foldG_alerts_shape env store _ _ (by simp [initTick])

theorem job_progress (env : Env) (store : Store) (cache : Cache)
    {a : Alert} {p : ℚ} {stg : Settings} {u : User}
    (hfail : env.failAt = none) (hm : marketOpen env.ny env.syd = true)
    (ha : a ∈ store.alerts) (hen : a.enabled = true)
    (hres : priceOutcome env cache a.symbol = some p) (hp : p ≠ 0)
    (htrig : triggerEval a.type a.target p = true)
    (hs : findSettings store a.username = some stg)
    (hu : findUser store a.username = some u)
    (he : eligSkip env.nowDt u = false) :
    a.id ∈ (check_alerts_job env store cache).disabled := by
  have hmemf : a ∈ store.alerts.filter (·.enabled) := List.mem_filter.2 ⟨ha, hen⟩
  simp only [check_alerts_job]
  rw [if_pos hm, if_neg (by simp [hfail])]
  rw [if_neg (by
    intro hemp
    rw [List.isEmpty_iff] at hemp
    rw [hemp] at hmemf
    exact absurd hmemf (List.not_mem_nil _))]
  rcases groupBySymbol_cover hmemf with ⟨g, hg, hag⟩
  exact foldG_progress env store cache hfail hres hp htrig hs hu he _ _ g hg hag
    (groupBySymbol_keys_nodup _) (fun k _ => rfl) (by simp [hfail, initTick])

theorem job_lookups (env : Env) (store : Store) (cache : Cache)
    (hfail : env.failAt = none) (hm : marketOpen env.ny env.syd = true) :
    (check_alerts_job env store cache).lookups =
      (groupBySymbol (store.alerts.filter (·.enabled))).map Prod.fst := by
  simp only [check_alerts_job]
  rw [if_pos hm, if_neg (by simp [hfail])]
  by_cases hemp : (store.alerts.filter (·.enabled)).isEmpty = true
  case pos =>
      rw [if_pos hemp]
      rw [List.isEmpty_iff] at hemp
      rw [hemp]
      simp [initTick, groupBySymbol]
  rw [if_neg hemp]
  rw [foldG_lookups env store hfail _ _ (by simp [hfail, initTick])]
  simp [initTick]

theorem job_fetched_sublist (env : Env) (store : Store) (cache : Cache) :
    (check_alerts_job env store cache).fetched.Sublist
      (check_alerts_job env store cache).lookups := by
  simp only [check_alerts_job]
  by_cases hm : marketOpen env.ny env.syd = true
  case neg =>
      rw [if_neg hm]
      simp [initTick]
  rw [if_pos hm]
  by_cases hr : (storeOp env.failAt false (initTick store cache)).1 = false
  case pos =>
      rw [if_pos hr]
      simp [initTick]
  rw [if_neg hr]
  by_cases hemp : (store.alerts.filter (·.enabled)).isEmpty = true
  case pos =>
      rw [if_pos hemp]
      simp [initTick]
  rw [if_neg hemp]
  exact foldG_sublist env store _ _ (by simp [initTick])

theorem job_opIdx (env : Env) (store : Store) (cache : Cache)
    {k : Nat} (hfa : env.failAt = some k) :
    (check_alerts_job env store cache).opIdx ≤ k + 1 := by
  simp only [check_alerts_job]
  by_cases hm : marketOpen env.ny env.syd = true
  case neg =>
      rw [if_neg hm]
      simp [initTick]
  rw [if_pos hm]
  have hinv0 : OpInv k (initTick store cache) := by
    constructor
    · intro _
      simp [initTick]
    · simp [initTick]
  have hinv1 : OpInv k (storeOp env.failAt false (initTick store cache)).2 := by
    rw [hfa]
    exact storeOp_opInv k false _ (by simp [initTick]) hinv0
  by_cases hr : (storeOp env.failAt false (initTick store cache)).1 = false
  case pos =>
      rw [if_pos hr]
      exact hinv1.2
  rw [if_neg hr]
  by_cases hemp : (store.alerts.filter (·.enabled)).isEmpty = true
  case pos =>
      rw [if_pos hemp]
      exact hinv1.2
  rw [if_neg hemp]
  exact (foldG_opInv env store _ _ hfa hinv1).2

theorem job_fail0 (env : Env) (store : Store) (cache : Cache)
    (hfa : env.failAt = some 0) :
    (check_alerts_job env store cache).alerts = store.alerts := by
  simp only [check_alerts_job]
  by_cases hm : marketOpen env.ny env.syd = true
  case neg =>
      rw [if_neg hm]
      rfl
  rw [if_pos hm, if_pos (by simp [hfa, initTick])]
  rfl

theorem cacheLookup_insert_self (c : Cache) (s : String) (v : ℚ × ℚ) :
    cacheLookup (cacheInsert c s v) s = some v := by
  unfold cacheLookup cacheInsert
  rw [List.find?_cons_of_pos _ (by simp)]
  rfl

/-! ### The claims -/

/-- C2: trigger evaluation returns true exactly when (direction = above and
price ≥ target) or (direction = below and price ≤ target); both boundaries
are inclusive: an above-alert with target 100.00 triggers at price 100.00
but not at 99.99, and a below-alert with target 50.00 triggers at 50.00 but
not at 50.01. -/
theorem C2_trigger_boundaries :
    (∀ (ty : String) (target price : ℚ),
      triggerEval ty target price = true ↔
        (ty = "above" ∧ price ≥ target) ∨ (ty = "below" ∧ price ≤ target)) ∧
    triggerEval "above" 100 100 = true ∧
    triggerEval "above" 100 (9999 / 100) = false ∧
    triggerEval "below" 50 50 = true ∧
    triggerEval "below" 50 (5001 / 100) = false := by
  have hiff : ∀ (ty : String) (target price : ℚ),
      triggerEval ty target price = true ↔
        (ty = "above" ∧ price ≥ target) ∨ (ty = "below" ∧ price ≤ target) := by
    intro ty target price
    unfold triggerEval
    split
    · rename_i h
      constructor
      · intro _
        exact Or.inl h
      · intro _
        rfl
    · split
      · rename_i h1 h2
        constructor
        · intro _
          exact Or.inr h2
        · intro _
          rfl
      · rename_i h1 h2
        constructor
        · intro hx
          exact absurd hx (by simp)
        · rintro (h | h)
          · exact absurd h h1
          · exact absurd h h2
  refine ⟨hiff, ?_, ?_, ?_, ?_⟩
  · rw [hiff]
    exact Or.inl ⟨rfl, le_refl _⟩
  · rw [Bool.eq_false_iff]
    intro h
    rcases (hiff _ _ _).1 h with ⟨_, h2⟩ | ⟨h1, _⟩
    · norm_num at h2
    · exact absurd h1 (by simp)
  · rw [hiff]
    exact Or.inr ⟨rfl, le_refl _⟩
  · rw [Bool.eq_false_iff]
    intro h
    rcases (hiff _ _ _).1 h with ⟨h1, _⟩ | ⟨_, h2⟩
    · exact absurd h1 (by simp)
    · norm_num at h2

/-- C2 witness: the characterisation instantiated at the above/100 boundary. -/
theorem C2_trigger_boundaries_w :
    triggerEval "above" 100 100 = true ↔
      ("above" = "above" ∧ (100 : ℚ) ≥ 100) ∨ ("above" = "below" ∧ (100 : ℚ) ≤ 100) :=
  C2_trigger_boundaries.1 "above" 100 100

/-- C4: the market-open check returns true iff the US session is open
(weekday Mon-Fri and New York local time in [09:30, 16:00)) or the AU
session is open (weekday Mon-Fri and Sydney local time in [10:00, 16:00));
09:29 New York on a Tuesday is closed, 09:30 is open, 16:00 is closed, and
any Saturday New York time (whose Sydney counterpart falls on the Sydney
weekend) is closed. -/
theorem C4_market_calendar :
    (∀ ny syd : LocalTime, ny.minute < 60 → syd.minute < 60 →
      (marketOpen ny syd = true ↔ usSessionSpec ny ∨ auSessionSpec syd)) ∧
    marketOpen ⟨1, 9, 29⟩ ⟨2, 1, 29⟩ = false ∧
    marketOpen ⟨1, 9, 30⟩ ⟨2, 1, 30⟩ = true ∧
    marketOpen ⟨1, 16, 0⟩ ⟨2, 8, 0⟩ = false ∧
    (∀ (h m : Nat) (syd : LocalTime), syd.weekday = 5 ∨ syd.weekday = 6 →
      marketOpen ⟨5, h, m⟩ syd = false) := by
  refine ⟨?_, by decide, by decide, by decide, ?_⟩
  · intro ny syd hn hs
    simp only [marketOpen, us_open, asx_open, usSessionSpec, auSessionSpec,
      Bool.or_eq_true, decide_eq_true_iff]
    omega
  · intro h m syd hw
    rcases hw with hw | hw <;> simp [marketOpen, us_open, asx_open, hw]

/-- C4 witness: the session characterisation at Tuesday 10:00 New York. -/
theorem C4_market_calendar_w :
    marketOpen ⟨1, 10, 0⟩ ⟨2, 1, 0⟩ = true ↔
      usSessionSpec ⟨1, 10, 0⟩ ∨ auSessionSpec ⟨2, 1, 0⟩ :=
  C4_market_calendar.1 ⟨1, 10, 0⟩ ⟨2, 1, 0⟩ (by decide) (by decide)

/-- C5: the price cache serves a cached price without contacting the source
whenever the entry's age is strictly below the 60-second TTL; a miss or a
stale entry triggers a fetch; fetch success stores `(price, now)` and
returns it; fetch failure returns absent and leaves any stale entry
untouched; hence a second call within the TTL of a successful fetch returns
the identical price with no second fetch. -/
theorem C5_price_cache (f : String → Option ℚ) (now now2 : ℚ) (cache : Cache) (s : String) :
    (∀ p t, cacheLookup cache s = some (p, t) → now - t < CACHE_DURATION →
      get_cached_price f now cache s = (some p, cache, false)) ∧
    ((cacheLookup cache s = none ∨
        ∃ p t, cacheLookup cache s = some (p, t) ∧ ¬(now - t < CACHE_DURATION)) →
      (get_cached_price f now cache s).2.2 = true) ∧
    ((cacheLookup cache s = none ∨
        ∃ p t, cacheLookup cache s = some (p, t) ∧ ¬(now - t < CACHE_DURATION)) →
      ∀ q, f s = some q → q ≠ 0 →
        get_cached_price f now cache s = (some q, cacheInsert cache s (q, now), true)) ∧
    ((cacheLookup cache s = none ∨
        ∃ p t, cacheLookup cache s = some (p, t) ∧ ¬(now - t < CACHE_DURATION)) →
      f s = none → get_cached_price f now cache s = (none, cache, true)) ∧
    (∀ q, f s = some q → q ≠ 0 →
      (cacheLookup cache s = none ∨
        ∃ p t, cacheLookup cache s = some (p, t) ∧ ¬(now - t < CACHE_DURATION)) →
      now2 - now < CACHE_DURATION →
      get_cached_price f now2 (get_cached_price f now cache s).2.1 s =
        (some q, (get_cached_price f now cache s).2.1, false)) := by
  have hhit : ∀ p t, cacheLookup cache s = some (p, t) → now - t < CACHE_DURATION →
      get_cached_price f now cache s = (some p, cache, false) := by
    intro p t hcl hfresh
    simp only [get_cached_price, hcl]
    rw [if_pos hfresh]
  have hmiss : (cacheLookup cache s = none ∨
      ∃ p t, cacheLookup cache s = some (p, t) ∧ ¬(now - t < CACHE_DURATION)) →
      get_cached_price f now cache s = fetchFresh f now cache s := by
    rintro (h | ⟨p, t, hcl, hstale⟩)
    · simp only [get_cached_price, h]
    · simp only [get_cached_price, hcl]
      rw [if_neg hstale]
  have hstore : ∀ q, f s = some q → q ≠ 0 →
      fetchFresh f now cache s = (some q, cacheInsert cache s (q, now), true) := by
    intro q hq hq0
    simp only [fetchFresh, hq]
    rw [if_pos hq0]
  refine ⟨hhit, ?_, ?_, ?_, ?_⟩
  · intro h
    rw [hmiss h]
    exact fetchFresh_flag f now cache s
  · intro h q hq hq0
    rw [hmiss h]
    exact hstore q hq hq0
  · intro h hnone
    rw [hmiss h]
    simp only [fetchFresh, hnone]
  · intro q hq hq0 h hfresh2
    rw [hmiss h, hstore q hq hq0]
    have hcl2 : cacheLookup (cacheInsert cache s (q, now)) s = some (q, now) :=
      cacheLookup_insert_self cache s (q, now)
    simp only [get_cached_price, hcl2]
    rw [if_pos hfresh2]

/-- C5 witness: a miss-then-hit pair on an empty cache at times 0 and 10. -/
theorem C5_price_cache_w :
    get_cached_price (fun _ => some 7) 10
        (get_cached_price (fun _ => some 7) 0 [] "X").2.1 "X" =
      (some 7, (get_cached_price (fun _ => some 7) 0 [] "X").2.1, false) :=
  (C5_price_cache (fun _ => some 7) 0 10 [] "X").2.2.2.2 7 rfl (by norm_num)
    (Or.inl rfl) (by norm_num [CACHE_DURATION])

/-- C6: a tick that starts while both market sessions are closed returns
immediately: the alerts table, the cache, and the instrumentation all show
zero store reads, zero store writes, zero price lookups, zero price
fetches, zero cache mutations and zero notifications. -/
theorem C6_closed_market_frame (env : Env) (store : Store) (cache : Cache)
    (h : marketOpen env.ny env.syd = false) :
    (check_alerts_job env store cache).alerts = store.alerts ∧
    (check_alerts_job env store cache).cache = cache ∧
    (check_alerts_job env store cache).notifs = [] ∧
    (check_alerts_job env store cache).lookups = [] ∧
    (check_alerts_job env store cache).fetched = [] ∧
    (check_alerts_job env store cache).reads = 0 ∧
    (check_alerts_job env store cache).writes = 0 := by
  simp only [check_alerts_job]
  rw [if_neg (by simp [h])]
  exact ⟨rfl, rfl, rfl, rfl, rfl, rfl, rfl⟩

/-- C6 witness: a Saturday tick over the witness store does nothing. -/
theorem C6_closed_market_frame_w :
    (check_alerts_job wClosedEnv wStore []).alerts = wStore.alerts ∧
    (check_alerts_job wClosedEnv wStore []).cache = [] ∧
    (check_alerts_job wClosedEnv wStore []).notifs = [] ∧
    (check_alerts_job wClosedEnv wStore []).lookups = [] ∧
    (check_alerts_job wClosedEnv wStore []).fetched = [] ∧
    (check_alerts_job wClosedEnv wStore []).reads = 0 ∧
    (check_alerts_job wClosedEnv wStore []).writes = 0 :=
  C6_closed_market_frame wClosedEnv wStore [] (by decide)

/-- C1: a triggered alert whose owner passes the eligibility checks (user
and settings rows exist, owner premium or trial not expired) has its
enabled flag set to false by the tick, regardless of the dispatcher's
outcome (the environment's Telegram configuration and post outcome are
arbitrary), and a subsequent tick over the resulting alert table — with any
environment, user/settings tables and cache — produces no notification for
that alert: at most one notification per enable period. -/
theorem C1_disable_after_trigger (env : Env) (store : Store) (cache : Cache)
    (a : Alert) (p : ℚ) (stg : Settings) (u : User)
    (hfail : env.failAt = none) (hm : marketOpen env.ny env.syd = true)
    (ha : a ∈ store.alerts) (hen : a.enabled = true)
    (hres : priceOutcome env cache a.symbol = some p) (hp : p ≠ 0)
    (htrig : triggerEval a.type a.target p = true)
    (hs : findSettings store a.username = some stg)
    (hu : findUser store a.username = some u)
    (he : eligSkip env.nowDt u = false) :
    (∀ x ∈ (check_alerts_job env store cache).alerts, x.id = a.id → x.enabled = false) ∧
    (∀ (env2 : Env) (users2 : List User) (settings2 : List Settings) (cache2 : Cache),
      ∀ x ∈ (check_alerts_job env2
          ⟨(check_alerts_job env store cache).alerts, users2, settings2⟩ cache2).notifs,
        x.1 ≠ a.id) := by
  have hprog : a.id ∈ (check_alerts_job env store cache).disabled :=
    job_progress env store cache hfail hm ha hen hres hp htrig hs hu he
  have hpart1 : ∀ x ∈ (check_alerts_job env store cache).alerts,
      x.id = a.id → x.enabled = false := by
    intro x hx hxid
    rw [job_alerts_shape] at hx
    exact applyDisables_enabled_false hx (hxid ▸ hprog)
  refine ⟨hpart1, ?_⟩
  intro env2 users2 settings2 cache2 x hx heq
  rcases job_notifs_sound env2 _ cache2 x hx with ⟨b, hb, hben, hbid, _⟩
  have hfalse := hpart1 b hb (hbid.trans heq)
  rw [hfalse] at hben
  exact absurd hben (by simp)

/-- C1 witness: alice's alert (id 1) fires at 155 and the row carrying its
id in the resulting table is disabled. -/
theorem C1_disable_after_trigger_w :
    (⟨1, "alice", "AAPL", 150, "above", false⟩ : Alert).enabled = false :=
  (C1_disable_after_trigger wEnv wStore []
    ⟨1, "alice", "AAPL", 150, "above", true⟩ 155 ⟨"alice", true, some "c1"⟩
    ⟨"alice", false, some 600⟩ rfl (by decide) (by decide) rfl (by decide)
    (by decide) (by decide) (by decide) (by decide) (by decide)).1
    ⟨1, "alice", "AAPL", 150, "above", false⟩ (by decide) rfl

/-- C8: the expired-trial suppression is exactly "not premium and a
trial-expiry timestamp strictly in the past" (premium owners, owners with
no parseable expiry, and unexpired trials are not suppressed), and a tick
makes no send attempt for any alert whose owner is suppressed. -/
theorem C8_eligibility :
    (∀ (nowDt : ℚ) (u : User),
      eligSkip nowDt u = true ↔
        u.premium = false ∧ ∃ te, u.trial_ends = some te ∧ nowDt > te) ∧
    (∀ (env : Env) (store : Store) (cache : Cache) (a : Alert) (u : User),
      (store.alerts.map (·.id)).Nodup →
      a ∈ store.alerts → a.enabled = true →
      findUser store a.username = some u → eligSkip env.nowDt u = true →
      ∀ x ∈ (check_alerts_job env store cache).notifs, x.1 ≠ a.id) := by
  constructor
  · intro nowDt u
    unfold eligSkip
    rcases hu : u.trial_ends with _ | te
    · simp [hu]
    · rcases hp : u.premium with _ | _
      · simp [hu, hp]
      · simp [hu, hp]
  · intro env store cache a u hnd ha hen hufind heskip x hx heq
    rcases job_notifs_sound env store cache x hx with ⟨b, hb, hben, hbid, p, hp1, hp2, hp3⟩
    have hba : b = a := List.inj_on_of_nodup_map hnd hb ha (hbid.trans heq)
    subst hba
    rcases hp3 with ⟨_, stg, u', hs', hu', he', _⟩
    have hud : u' = u := Option.some.inj (hu'.symm.trans hufind)
    rw [hud] at he'
    rw [he'] at heskip
    exact absurd heskip (by simp)

/-- C8 witness: erin's trial expired, so her triggered alert (id 5) gets
no send attempt in the witness tick. -/
theorem C8_eligibility_w : (1 : Nat) ≠ 5 :=
  C8_eligibility.2 wEnv wStore [] ⟨5, "erin", "AAPL", 150, "above", true⟩
    ⟨"erin", false, some 100⟩ (by decide) (by decide) (by decide) (by decide) (by decide)
    (1, true) (by decide)

/-- C9: a triggered-but-not-dispatched alert — owner's user row or settings
row missing, or owner a non-premium user with an expired trial — keeps its
enabled flag: the alert row survives the tick unchanged and every row with
its id is still enabled, so it is re-evaluated on every subsequent tick. -/
theorem C9_suppressed_stays_enabled (env : Env) (store : Store) (cache : Cache)
    (a : Alert)
    (hnd : (store.alerts.map (·.id)).Nodup)
    (ha : a ∈ store.alerts) (hen : a.enabled = true)
    (hbad : findSettings store a.username = none ∨ findUser store a.username = none ∨
      ∃ u, findUser store a.username = some u ∧ eligSkip env.nowDt u = true) :
    a ∈ (check_alerts_job env store cache).alerts ∧
    (∀ x ∈ (check_alerts_job env store cache).alerts, x.id = a.id → x.enabled = true) := by
  have hnotd : a.id ∉ (check_alerts_job env store cache).disabled := by
    intro hd
    rcases job_disabled_sound env store cache a.id hd with ⟨b, hb, hben, hbid, p, hp1, hp2, hp3⟩
    have hba : b = a := List.inj_on_of_nodup_map hnd hb ha hbid
    subst hba
    rcases hp3 with ⟨_, stg, u', hs', hu', he'⟩
    rcases hbad with h | h | ⟨u, hu, he⟩
    · rw [h] at hs'
      exact Option.noConfusion hs'
    · rw [h] at hu'
      exact Option.noConfusion hu'
    · have hud : u' = u := Option.some.inj (hu'.symm.trans hu)
      rw [hud] at he'
      rw [he'] at he
      exact absurd he (by simp)
  constructor
  · rw [job_alerts_shape]
    exact mem_applyDisables_of_not_mem ha hnotd
  · intro x hx hxid
    rw [job_alerts_shape] at hx
    have hxs := mem_of_mem_applyDisables hx (hxid ▸ hnotd)
    have hxa : x = a := List.inj_on_of_nodup_map hnd hxs ha hxid
    rw [hxa]
    exact hen

/-- C9 witness: frank has no user row; his triggered alert (id 6) survives
the witness tick enabled. -/
theorem C9_suppressed_stays_enabled_w :
    (⟨6, "frank", "AAPL", 150, "above", true⟩ : Alert) ∈
        (check_alerts_job wEnv wStore []).alerts :=
  (C9_suppressed_stays_enabled wEnv wStore [] ⟨6, "frank", "AAPL", 150, "above", true⟩
    (by decide) (by decide) (by decide) (Or.inr (Or.inl (by decide)))).1

/-- C10: a fetched price of exactly 0 is treated as absent: the cache is
left unchanged (zero is never stored), and in the tick the zero return is
treated as a failed fetch, so no alert of that symbol — even a
direction=below alert whose condition price ≤ target would hold at 0 — is
notified or disabled, and all its alerts stay enabled. -/
theorem C10_zero_price :
    (∀ (f : String → Option ℚ) (now : ℚ) (cache : Cache) (s : String),
      f s = some 0 → (get_cached_price f now cache s).2.1 = cache) ∧
    (∀ (env : Env) (store : Store) (cache : Cache) (s : String) (a : Alert),
      (store.alerts.map (·.id)).Nodup →
      priceOutcome env cache s = some 0 →
      a ∈ store.alerts → a.enabled = true → a.symbol = s →
      (∀ x ∈ (check_alerts_job env store cache).notifs, x.1 ≠ a.id) ∧
      a.id ∉ (check_alerts_job env store cache).disabled ∧
      a ∈ (check_alerts_job env store cache).alerts ∧
      (∀ x ∈ (check_alerts_job env store cache).alerts, x.id = a.id → x.enabled = true)) := by
  constructor
  · intro f now cache s h
    rcases hcl : cacheLookup cache s with _ | ⟨p, t⟩
    · simp [get_cached_price, hcl, fetchFresh, h]
    · simp only [get_cached_price, hcl]
      split
      · rfl
      · simp [fetchFresh, h]
  · intro env store cache s a hnd hzero ha hen hsym
    have hnotnotif : ∀ x ∈ (check_alerts_job env store cache).notifs, x.1 ≠ a.id := by
      intro x hx heq
      rcases job_notifs_sound env store cache x hx with ⟨b, hb, hben, hbid, p, hp1, hp2, _⟩
      have hba : b = a := List.inj_on_of_nodup_map hnd hb ha (hbid.trans heq)
      subst hba
      rw [hsym, hzero] at hp1
      exact hp2 (Option.some.inj hp1).symm
    have hnotd : a.id ∉ (check_alerts_job env store cache).disabled := by
      intro hd
      rcases job_disabled_sound env store cache a.id hd with ⟨b, hb, hben, hbid, p, hp1, hp2, _⟩
      have hba : b = a := List.inj_on_of_nodup_map hnd hb ha hbid
      subst hba
      rw [hsym, hzero] at hp1
      exact hp2 (Option.some.inj hp1).symm
    refine ⟨hnotnotif, hnotd, ?_, ?_⟩
    · rw [job_alerts_shape]
      exact mem_applyDisables_of_not_mem ha hnotd
    · intro x hx hxid
      rw [job_alerts_shape] at hx
      have hxs := mem_of_mem_applyDisables hx (hxid ▸ hnotd)
      have hxa : x = a := List.inj_on_of_nodup_map hnd hxs ha hxid
      rw [hxa]
      exact hen

/-- C10 witness: carol's below-alert on the zero-priced symbol (id 3) is
neither notified nor disabled in the witness tick. -/
theorem C10_zero_price_w :
    (⟨3, "carol", "ZERO", 10, "below", true⟩ : Alert) ∈
        (check_alerts_job wEnv wStore []).alerts :=
  (C10_zero_price.2 wEnv wStore [] "ZERO" ⟨3, "carol", "ZERO", 10, "below", true⟩
    (by decide) (by decide) (by decide) (by decide) (by decide)).2.2.1

/-- C3: in a tick, the enabled alerts are grouped by symbol and the cache
lookup runs exactly once per distinct symbol (the lookup list has no
duplicates and contains exactly the symbols of enabled alerts), so the
external source is fetched at most once per symbol; a symbol whose price
outcome is falsy has none of its alerts notified or disabled — they all
stay enabled. -/
theorem C3_batching (env : Env) (store : Store) (cache : Cache)
    (hfail : env.failAt = none) (hm : marketOpen env.ny env.syd = true)
    (hnd : (store.alerts.map (·.id)).Nodup) :
    (check_alerts_job env store cache).lookups.Nodup ∧
    (∀ s : String, s ∈ (check_alerts_job env store cache).lookups ↔
      ∃ a ∈ store.alerts, a.enabled = true ∧ a.symbol = s) ∧
    (∀ s : String, (check_alerts_job env store cache).fetched.count s ≤ 1) ∧
    (∀ (s : String) (a : Alert), truthyPrice (priceOutcome env cache s) = false →
      a ∈ store.alerts → a.enabled = true → a.symbol = s →
      (∀ x ∈ (check_alerts_job env store cache).notifs, x.1 ≠ a.id) ∧
      a ∈ (check_alerts_job env store cache).alerts ∧
      (∀ x ∈ (check_alerts_job env store cache).alerts, x.id = a.id → x.enabled = true)) := by
  have hlk : (check_alerts_job env store cache).lookups.Nodup := by
    rw [job_lookups env store cache hfail hm]
    exact groupBySymbol_keys_nodup _
  refine ⟨hlk, ?_, ?_, ?_⟩
  · intro s
    rw [job_lookups env store cache hfail hm, groupBySymbol_keys_mem]
    constructor
    · rintro ⟨b, hb, hbs⟩
      have hm2 := List.mem_filter.1 hb
      exact ⟨b, hm2.1, by simpa using hm2.2, hbs⟩
    · rintro ⟨b, hb, hben, hbs⟩
      exact ⟨b, List.mem_filter.2 ⟨hb, by simpa using hben⟩, hbs⟩
  · intro s
    have hnodupf : (check_alerts_job env store cache).fetched.Nodup :=
      List.Nodup.sublist (job_fetched_sublist env store cache) hlk
    exact List.nodup_iff_count_le_one.1 hnodupf s
  · intro s a hfalsy ha hen hsym
    have htruthy : ∀ (q : ℚ), priceOutcome env cache s = some q → q ≠ 0 → False := by
      intro q hq hq0
      rw [hq] at hfalsy
      simp [truthyPrice] at hfalsy
      exact hq0 hfalsy
    have hnotnotif : ∀ x ∈ (check_alerts_job env store cache).notifs, x.1 ≠ a.id := by
      intro x hx heq
      rcases job_notifs_sound env store cache x hx with ⟨b, hb, hben, hbid, p, hp1, hp2, _⟩
      have hba : b = a := List.inj_on_of_nodup_map hnd hb ha (hbid.trans heq)
      subst hba
      rw [hsym] at hp1
      exact htruthy p hp1 hp2
    have hnotd : a.id ∉ (check_alerts_job env store cache).disabled := by
      intro hd
      rcases job_disabled_sound env store cache a.id hd with ⟨b, hb, hben, hbid, p, hp1, hp2, _⟩
      have hba : b = a := List.inj_on_of_nodup_map hnd hb ha hbid
      subst hba
      rw [hsym] at hp1
      exact htruthy p hp1 hp2
    refine ⟨hnotnotif, ?_, ?_⟩
    · rw [job_alerts_shape]
      exact mem_applyDisables_of_not_mem ha hnotd
    · intro x hx hxid
      rw [job_alerts_shape] at hx
      have hxs := mem_of_mem_applyDisables hx (hxid ▸ hnotd)
      have hxa : x = a := List.inj_on_of_nodup_map hnd hxs ha hxid
      rw [hxa]
      exact hen

/-- C3 witness: the witness tick looks each distinct symbol up exactly once. -/
theorem C3_batching_w : (check_alerts_job wEnv wStore []).lookups.Nodup :=
  (C3_batching wEnv wStore [] rfl (by decide) (by decide)).1

/-- C7 counterexample: in a tick whose fifth store operation raises (the
settings query of the second alert, after the first alert's disable write
already succeeded), the tick aborts — yet alert 1 has been modified: its
enabled flag is false in the resulting table although it was true before
the tick.  This refutes "all alert states are left unchanged by that
tick". -/
theorem C7_cex :
    (check_alerts_job cexEnv cexStore []).aborted = true ∧
    (⟨1, "u", "A", 10, "above", false⟩ : Alert) ∈ (check_alerts_job cexEnv cexStore []).alerts ∧
    (⟨1, "u", "A", 10, "above", true⟩ : Alert) ∈ cexStore.alerts := by
  exact ⟨by decide, by decide, by decide⟩

/-- C7 amended: when store operation `k` raises, the tick still returns a
state (the exception is caught at the tick boundary, so the scheduler
survives) and attempts no operation beyond index `k`; the only alert-state
changes are disables of alerts that triggered and fully passed the gate
before the failure; in particular if the very first operation — the
enabled-alert listing — raises, all alert states are unchanged. -/
theorem C7_store_failure_amended (env : Env) (store : Store) (cache : Cache)
    {k : Nat} (hfa : env.failAt = some k) :
    (check_alerts_job env store cache).alerts =
      applyDisables (check_alerts_job env store cache).disabled store.alerts ∧
    (∀ d ∈ (check_alerts_job env store cache).disabled,
      ∃ b, b ∈ store.alerts ∧ b.enabled = true ∧ b.id = d ∧
        ∃ p, priceOutcome env cache b.symbol = some p ∧ p ≠ 0 ∧
          disableGate env store b p) ∧
    (check_alerts_job env store cache).opIdx ≤ k + 1 ∧
    (k = 0 → (check_alerts_job env store cache).alerts = store.alerts) :=
  ⟨job_alerts_shape env store cache, job_disabled_sound env store cache,
    job_opIdx env store cache hfa, fun h => job_fail0 env store cache (h ▸ hfa)⟩

/-- C7 amended witness: the aborted counterexample tick attempts no store
operation beyond the failing one. -/
theorem C7_store_failure_amended_w :
    (check_alerts_job cexEnv cexStore []).opIdx ≤ 5 :=
  (C7_store_failure_amended cexEnv cexStore [] rfl).2.2.1

end StockAlerts
